import Mathlib

/-
  Verification development for the RDFin link ingestion and naming engine
  (src/app/rdfin_strm.py and src/app/app.py).

  The Python code is shallowly embedded: strings are Lean `String`s, the
  filesystem state that matters (the set of files in one season directory)
  is a `List String` of file names, the external Real-Debrid unrestrict
  client is a parameter `ur : String → Except String Resolved`, and Python
  exceptions are `Except`.  Python truthiness of strings ("" is falsy) and
  of integers (0 is falsy) is modelled explicitly by `truthyS` / `truthyN`.
-/

namespace RDFin

/-- Python `str.isspace`-style whitespace characters relevant to `str.strip()`
(ASCII fragment; the source only ever meets ASCII here). -/
def pyWsChar (c : Char) : Bool :=
  c == ' ' || c == '\t' || c == '\n' || c == '\r' || c == '\x0b' || c == '\x0c'

/-- The reserved filesystem characters removed by `sanitize_name`
(the Python literal `r'\/:*?"<>|'`). -/
def reservedChar (c : Char) : Bool :=
  c == '\\' || c == '/' || c == ':' || c == '*' || c == '?' ||
  c == '"' || c == '<' || c == '>' || c == '|'

/-- Drop the longest leading run of characters satisfying `p` (Python `lstrip`). -/
def dropWhileChar (p : Char → Bool) : List Char → List Char
  | [] => []
  | c :: cs => if p c then dropWhileChar p cs else c :: cs

/-- Drop the longest trailing run of characters satisfying `p` (Python `rstrip`). -/
def dropTrailing (p : Char → Bool) (l : List Char) : List Char :=
  (dropWhileChar p l.reverse).reverse

/-- Strip characters satisfying `p` from both ends (Python `strip`). -/
def stripList (p : Char → Bool) (l : List Char) : List Char :=
  dropTrailing p (dropWhileChar p l)

/-- Python `s.strip()` (whitespace on both ends). -/
def pyStrip (s : String) : String := String.mk (stripList pyWsChar s.data)

/-- rdfin_strm.py `sanitize_name`: for falsy (empty) input return the literal
"unnamed"; otherwise remove the reserved characters, `strip()`, then
`rstrip(". ")` and `strip()` again. -/
def sanitize_name (name : String) : String :=
  if name = "" then "unnamed"
  else
    pyStrip (String.mk (dropTrailing (fun c => c == '.' || c == ' ')
      (pyStrip (String.mk (name.data.filter (fun c => !reservedChar c)))).data))

/-- Split a string at every occurrence of the character `c`, keeping empty
pieces, as Python `str.split(c)` does. -/
def splitAux (c : Char) : List Char → List Char → List String
  | [], cur => [String.mk cur.reverse]
  | x :: xs, cur =>
    if x == c then String.mk cur.reverse :: splitAux c xs []
    else splitAux c xs (x :: cur)

def splitOnChar (c : Char) (s : String) : List String := splitAux c s.data []

def startsWithStr (pre s : String) : Bool := List.isPrefixOf pre.data s.data

def endsWithStr (suf s : String) : Bool := List.isSuffixOf suf.data s.data

def toLowerStr (s : String) : String := String.mk (s.data.map Char.toLower)

/-- Python `p.partition(c)[2]`: everything after the first occurrence of `c`,
or the empty string when `c` does not occur. -/
def afterChar (c : Char) : List Char → List Char
  | [] => []
  | x :: xs => if x == c then xs else afterChar c xs

def partAfter (c : Char) (s : String) : String := String.mk (afterChar c s.data)

def replaceChar (a b : Char) (s : String) : String :=
  String.mk (s.data.map (fun c => if c == a then b else c))

/-- The non-root tokens of a POSIX path as `pathlib` produces them: split on
`/`, discard empty pieces and lone dots. -/
def pathSegs (s : String) : List String :=
  (splitOnChar '/' s).filter (fun x => x != "" && x != ".")

/-- The `pathlib` parts of a target path after app.py's filter
`[part for part in p.parts if part and part != '/']`: the `/` root is gone,
but the special POSIX `//` root survives the filter. -/
def pyPartsFiltered (s : String) : List String :=
  (if startsWithStr "//" s && !startsWithStr "///" s then ["//"] else []) ++ pathSegs s

/-- Python `Path(s).name`: the final non-root path component, or `""`. -/
def pyPathName (s : String) : String := (pathSegs s).getLast?.getD ""

def lastDotIdx : List Char → Nat → Option Nat → Option Nat
  | [], _, best => best
  | c :: cs, i, best => lastDotIdx cs (i + 1) (if c == '.' then some i else best)

/-- The `pathlib` stem rule applied to a bare file name: the suffix starts at
the last dot, but only if that dot is neither the first nor the last
character of the name. -/
def stemOfName (n : String) : String :=
  match lastDotIdx n.data 0 none with
  | some i => if 0 < i ∧ i + 1 < n.data.length then String.mk (n.data.take i) else n
  | none => n

/-- Python `Path(s).stem`. -/
def pyStem (s : String) : String := stemOfName (pyPathName s)

/-- rdfin_strm.py `strip_extension`: `Path(name).stem` for truthy input, the
literal "unnamed" for empty input. -/
def strip_extension (name : String) : String :=
  if name = "" then "unnamed" else pyStem name

/-- Python truthiness of an optional string: `None` and `""` are falsy. -/
def truthyS : Option String → Bool
  | none => false
  | some s => s != ""

/-- Python truthiness of an optional integer: `None` and `0` are falsy. -/
def truthyN : Option Nat → Bool
  | none => false
  | some n => n != 0

/-- Components of `urllib.parse.urlsplit` that the source consumes. -/
structure UrlParts where
  scheme : String
  netloc : String
  path : String
deriving DecidableEq, Repr

def schemeCharOk (c : Char) : Bool :=
  c.isAlpha || c.isDigit || c == '+' || c == '-' || c == '.'

def idxOfColon : List Char → Nat → Option Nat
  | [], _ => none
  | c :: cs, i => if c == ':' then some i else idxOfColon cs (i + 1)

def headAlpha : List Char → Bool
  | [] => false
  | c :: _ => c.isAlpha

/-- Cut a split-result at the fragment and query separators; `urlsplit` removes
the fragment first and the query second, which for the `path` component is the
same as cutting at whichever of `#` / `?` comes first. -/
def cutQF (l : List Char) : List Char :=
  (l.takeWhile (fun c => c != '#')).takeWhile (fun c => c != '?')

def notNetlocEnd (c : Char) : Bool := c != '/' && c != '?' && c != '#'

/-- Model of `urllib.parse.urlsplit`: a leading `<scheme>:` is recognised when
the prefix is a valid scheme; `//` introduces the netloc, which must have
balanced square brackets (otherwise `ValueError("Invalid IPv6 URL")` — the one
parse failure the source's `name_from_url` can meet). -/
def pyUrlsplit (url : String) : Except String UrlParts :=
  let l := url.data
  let sp : String × List Char :=
    match idxOfColon l 0 with
    | some i =>
      if decide (0 < i) && headAlpha l && (l.take i).all schemeCharOk then
        (String.mk ((l.take i).map Char.toLower), l.drop (i + 1))
      else ("", l)
    | none => ("", l)
  match sp.2 with
  | '/' :: '/' :: rest2 =>
    let nl := rest2.takeWhile notNetlocEnd
    let after := rest2.dropWhile notNetlocEnd
    if (nl.contains '[' && !nl.contains ']') || (nl.contains ']' && !nl.contains '[') then
      Except.error "Invalid IPv6 URL"
    else Except.ok ⟨sp.1, String.mk nl, String.mk (cutQF after)⟩
  | rest => Except.ok ⟨sp.1, "", String.mk (cutQF rest)⟩

def hexVal (c : Char) : Option Nat :=
  if c.isDigit then some (c.toNat - 48)
  else if 'a' ≤ c ∧ c ≤ 'f' then some (c.toNat - 87)
  else if 'A' ≤ c ∧ c ≤ 'F' then some (c.toNat - 55)
  else none

/-- Percent-decoding as `urllib.parse.unquote` does for ASCII escapes; an
invalid escape keeps the `%` literally. -/
def unquoteAux : List Char → List Char
  | [] => []
  | '%' :: a :: b :: rest =>
    match hexVal a, hexVal b with
    | some x, some y => Char.ofNat (16 * x + y) :: unquoteAux rest
    | _, _ => '%' :: unquoteAux (a :: b :: rest)
  | c :: rest => c :: unquoteAux rest

def pyUnquote (s : String) : String := String.mk (unquoteAux s.data)

/-- rdfin_strm.py `name_from_url`: last path segment of the URL (percent
decoded), falling back to the netloc with dots replaced by underscores, all
through `sanitize_name`; a urlsplit failure yields the literal "unnamed". -/
def name_from_url (url : String) : String :=
  match pyUrlsplit url with
  | Except.error _ => "unnamed"
  | Except.ok u =>
    let n := pyPathName (pyUnquote u.path)
    sanitize_name (if n = "" then replaceChar '.' '_' u.netloc else n)

def dval (c : Char) : Nat := c.toNat - 48

/-- Leftmost match of `\d{1,2}`: the first digit together with a second one
when it immediately follows (the regex quantifier is greedy). -/
def firstDigitRunAux : List Char → Option Nat
  | [] => none
  | c :: rest =>
    if c.isDigit then
      match rest with
      | d :: _ => if d.isDigit then some (dval c * 10 + dval d) else some (dval c)
      | [] => some (dval c)
    else firstDigitRunAux rest

def firstDigitRun (s : String) : Option Nat := firstDigitRunAux s.data

/-- Does `S\d{2}E\d{2}` (case-insensitive) match starting at the head? -/
def s2e2At : List Char → Bool
  | s :: d1 :: d2 :: e :: d3 :: d4 :: _ =>
    (s == 'S' || s == 's') && d1.isDigit && d2.isDigit &&
    (e == 'E' || e == 'e') && d3.isDigit && d4.isDigit
  | _ => false

/-- `re.search(r'S\d{2}E\d{2}', s, re.IGNORECASE)` viewed as a Bool. -/
def hasS2E2Aux : List Char → Bool
  | [] => false
  | c :: rest => s2e2At (c :: rest) || hasS2E2Aux rest

def hasS2E2 (s : String) : Bool := hasS2E2Aux s.data

/-- Match `[Ee]\d{1,2}` at the head, returning the matched characters
(greedy on the digits). -/
def matchEp : List Char → Option (List Char)
  | [] => none
  | [_] => none
  | e :: d1 :: rest =>
    if (e == 'E' || e == 'e') && d1.isDigit then
      match rest with
      | d2 :: _ => if d2.isDigit then some [e, d1, d2] else some [e, d1]
      | [] => some [e, d1]
    else none

/-- Match `[Ss](\d{1,2})[Ee]\d{1,2}` at the head: try the greedy two-digit
season first and backtrack to one digit, as the regex engine does.  Returns
the matched characters and the captured season value. -/
def matchSE : List Char → Option (List Char × Nat)
  | s :: d1 :: rest =>
    if (s == 'S' || s == 's') && d1.isDigit then
      match rest with
      | d2 :: rest2 =>
        if d2.isDigit then
          match matchEp rest2 with
          | some ep => some (s :: d1 :: d2 :: ep, dval d1 * 10 + dval d2)
          | none =>
            match matchEp rest with
            | some ep => some (s :: d1 :: ep, dval d1)
            | none => none
        else
          match matchEp rest with
          | some ep => some (s :: d1 :: ep, dval d1)
          | none => none
      | [] => none
    else none
  | _ => none

def searchSEAux : List Char → List Char → Option (String × String × Nat)
  | _, [] => none
  | acc, c :: rest =>
    match matchSE (c :: rest) with
    | some (m, v) => some (String.mk acc.reverse, String.mk m, v)
    | none => searchSEAux (c :: acc) rest

/-- `re.search(r'([Ss](\d{1,2})[Ee]\d{1,2})', s)`: the text before the
leftmost match, the matched text (group 1) and the season value (group 2). -/
def searchS12E12 (s : String) : Option (String × String × Nat) :=
  searchSEAux [] s.data

def sepCh (c : Char) : Bool := c == ' ' || c == '.' || c == '_' || c == '-'

/-- Match `[Ss]eason[ ._-]?(\d{1,2})` (IGNORECASE) at the head, returning the
matched characters and the captured digits value. -/
def matchSeasonAt : List Char → Option (List Char × Nat)
  | c1 :: c2 :: c3 :: c4 :: c5 :: c6 :: rest =>
    if c1.toLower == 's' && c2.toLower == 'e' && c3.toLower == 'a' &&
       c4.toLower == 's' && c5.toLower == 'o' && c6.toLower == 'n' then
      match rest with
      | d1 :: rest1 =>
        if d1.isDigit then
          match rest1 with
          | d2 :: _ =>
            if d2.isDigit then some ([c1, c2, c3, c4, c5, c6, d1, d2], dval d1 * 10 + dval d2)
            else some ([c1, c2, c3, c4, c5, c6, d1], dval d1)
          | [] => some ([c1, c2, c3, c4, c5, c6, d1], dval d1)
        else if sepCh d1 then
          match rest1 with
          | e1 :: rest2 =>
            if e1.isDigit then
              match rest2 with
              | e2 :: _ =>
                if e2.isDigit then some ([c1, c2, c3, c4, c5, c6, d1, e1, e2], dval e1 * 10 + dval e2)
                else some ([c1, c2, c3, c4, c5, c6, d1, e1], dval e1)
              | [] => some ([c1, c2, c3, c4, c5, c6, d1, e1], dval e1)
            else none
          | [] => none
        else none
      | [] => none
    else none
  | _ => none

def searchSeasonAux : List Char → List Char → Option (String × String × Nat)
  | _, [] => none
  | acc, c :: rest =>
    match matchSeasonAt (c :: rest) with
    | some (m, v) => some (String.mk acc.reverse, String.mk m, v)
    | none => searchSeasonAux (c :: acc) rest

/-- Search for `[Ss]eason[ ._-]?(\d{1,2})` (IGNORECASE): text before the
leftmost match, matched text (group 0) and the digits value (group 1). -/
def searchSeasonTok (s : String) : Option (String × String × Nat) :=
  searchSeasonAux [] s.data

def findTvIdx : List String → Nat → Option Nat
  | [], _ => none
  | x :: xs, i => if toLowerStr x = "tv" then some i else findTvIdx xs (i + 1)

def nth : List String → Nat → Option String
  | [], _ => none
  | x :: _, 0 => some x
  | _ :: xs, n + 1 => nth xs n

/-- app.py `infer_show_and_season_from_target`: tokenize the path; if a
segment lowercases to "tv", the next segment is the show and the one after
carries the season digits; otherwise with at least three segments use the
third- and second-from-last.  Nothing here can raise; the `except` wrapper
in the source is dead defensive code. -/
def infer_show_and_season_from_target (target : String) : Option String × Option Nat :=
  if target = "" then (none, none)
  else
    let parts := pyPartsFiltered target
    match findTvIdx parts 0 with
    | some idx => (nth parts (idx + 1), (nth parts (idx + 2)).bind firstDigitRun)
    | none =>
      if 3 ≤ parts.length then
        (nth parts (parts.length - 3), (nth parts (parts.length - 2)).bind firstDigitRun)
      else (none, none)

/-- The separator set of `str.strip(" -._.")` in the source: space, dash,
dot, underscore. -/
def sepChar (c : Char) : Bool := c == ' ' || c == '-' || c == '.' || c == '_'

/-- app.py `infer_from_filename_for_season`: look for `SxxEyy` in the stem
(show = trimmed text before it, dots to spaces, `None` when empty); else for
a `season NN` token; else `(None, None)`. -/
def infer_from_filename_for_season (fname : String) : Option String × Option Nat :=
  if fname = "" then (none, none)
  else
    let base := pyStem fname
    match searchS12E12 base with
    | some (pre, _, sv) =>
      let showPart := String.mk (stripList sepChar pre.data)
      ((if showPart = "" then none
        else some (pyStrip (replaceChar '.' ' ' showPart))), some sv)
    | none =>
      match searchSeasonTok base with
      | some (pre, _, sv) =>
        let sh := pyStrip (replaceChar '.' ' ' pre)
        ((if sh = "" then none else some sh), some sv)
      | none => (none, none)

/-- One parsed history-log record (`parse_log_entries` output dict). -/
structure Entry where
  link : Option String
  target : Option String
  raw : String
deriving DecidableEq, Repr

/-- Scan of the pipe-separated tokens for `link=` / `target=` prefixes
(case-insensitive); a later token overwrites an earlier one, as the Python
loop assignment does. -/
def tokenScan (acc : Option String × Option String) (p : String) :
    Option String × Option String :=
  let lp := toLowerStr p
  if startsWithStr "link=" lp then (some (pyStrip (partAfter '=' p)), acc.2)
  else if startsWithStr "target=" lp then (acc.1, some (pyStrip (partAfter '=' p)))
  else acc

/-- app.py `parse_log_entries`, per non-empty stripped line: read `link=` and
`target=` tokens; when no truthy link was found take the last bare
`http(s)://` token. -/
def parseEntryLine (ln : String) : Entry :=
  let parts := (splitOnChar '|' ln).map pyStrip
  let lt := parts.foldl tokenScan (none, none)
  let link :=
    if truthyS lt.1 then lt.1
    else
      match parts.reverse.find? (fun p => startsWithStr "http://" p || startsWithStr "https://" p) with
      | some p => some p
      | none => lt.1
  ⟨link, lt.2, ln⟩

def parse_log_entries (lines : List String) : List Entry :=
  ((lines.map pyStrip).filter (fun x => x != "")).map parseEntryLine

/-- The TV grouping inference chain of `spawn_refresh_job_simple`
(app.py lines 182-198): strategy 1 on the target (accepted when it yields a
truthy show), then strategy 2 on the target's file name, then strategy 2 on
the raw link, the latter two accepted when show or season is truthy. -/
def inferredForGroup (e : Entry) : Option String × Option Nat :=
  let lk := e.link.getD ""
  let p1 : Option String × Option Nat :=
    match e.target with
    | some t =>
      if t != "" then
        let r := infer_show_and_season_from_target t
        if truthyS r.1 then r else (none, none)
      else (none, none)
    | none => (none, none)
  let p2 : Option String × Option Nat :=
    if !truthyS p1.1 && (match e.target with | some t => t != "" | none => false) then
      let r := infer_from_filename_for_season (pyPathName (e.target.getD ""))
      if truthyS r.1 || truthyN r.2 then r else p1
    else p1
  if !truthyS p2.1 then
    let r := infer_from_filename_for_season lk
    if truthyS r.1 || truthyN r.2 then r else p2
  else p2

/-- The grouping key actually computed by the source: Python truthiness makes
both a missing show and an empty one default to "Unknown", and both a missing
season and an inferred season `0` default to `1`. -/
def groupKey (e : Entry) : String × Nat :=
  let f := inferredForGroup e
  ((if truthyS f.1 then f.1.getD "" else "Unknown"),
   (if truthyN f.2 then f.2.getD 0 else 1))

/-- Modelled from the claim's words (spec §4.2): the grouping key with the
defaults applied only when nothing was inferred — show `none` maps to
"Unknown" and season `none` maps to `1`.  Compared against `groupKey`. -/
def specGroupKey (e : Entry) : String × Nat :=
  ((inferredForGroup e).1.getD "Unknown", (inferredForGroup e).2.getD 1)

/-- Insertion into the ordered association list that models the Python dict
`groups` with `setdefault(key, []).append(link)`. -/
def insertGroup (k : String × Nat) (v : String) :
    List ((String × Nat) × List String) → List ((String × Nat) × List String)
  | [] => [(k, [v])]
  | g :: t => if g.1 = k then (g.1, g.2 ++ [v]) :: t else g :: insertGroup k v t

def tvGroupsStep (gs : List ((String × Nat) × List String)) (e : Entry) :
    List ((String × Nat) × List String) :=
  if truthyS e.link then insertGroup (groupKey e) (e.link.getD "") gs else gs

/-- The TV grouping loop of `spawn_refresh_job_simple`: records without a
truthy link are skipped, the others are appended to their key's group. -/
def tvGroups (es : List Entry) : List ((String × Nat) × List String) :=
  es.foldl tvGroupsStep []

/-- A started background job summary (`started` list elements). -/
inductive Started where
  | movies (links : List String)
  | tv (showName : String) (season : Nat) (links : List String)
deriving DecidableEq, Repr

/-- app.py `spawn_refresh_job_simple` with the log file already read into
lines: empty entry list raises; the movies path raises when no entry has a
truthy link; the tv path groups and spawns one job per group (and spawns
nothing at all when no entry has a truthy link). -/
def spawn_refresh_job_simple (media_type : String) (lines : List String) :
    Except String (List Started) :=
  let entries := parse_log_entries lines
  if entries = [] then Except.error "no links found in log"
  else if media_type = "movies" then
    let links := (entries.filter (fun e => truthyS e.link)).map (fun e => e.link.getD "")
    if links = [] then Except.error "no links found in movie log"
    else Except.ok [Started.movies links]
  else Except.ok ((tvGroups entries).map (fun g => Started.tv g.1.1 g.1.2 g.2))

/-- The canonicalized result of the Real-Debrid unrestrict call. -/
structure Resolved where
  filename : Option String
  direct : Option String
deriving DecidableEq, Repr

/-- Zero-padding to (at least) two digits, Python `f"{n:02d}"` for `n ≥ 0`. -/
def pad2 (n : Nat) : String := if n < 10 then "0" ++ toString n else toString n

/-- rdfin_strm.py `add_movie`: the destination (as path segments below the
media root) is built from the title alone; resolution failure or a missing
direct URL raises. -/
def add_movie (ur : String → Except String Resolved) (title lk : String) :
    Except String (List String) :=
  let safe := sanitize_name (strip_extension title)
  let dest := ["movies", safe, safe ++ ".strm"]
  match ur lk with
  | Except.error e => Except.error e
  | Except.ok resp =>
    if truthyS resp.direct then Except.ok dest
    else Except.error "No direct link returned from Real-Debrid."

/-- rdfin_strm.py `add_episode`: base name from the RD filename stem (or the
URL when absent); a `SxxExx` marker in the sanitized base keeps the name,
otherwise the marker is synthesized from the caller's season and episode.
Returns the destination path segments below the media root. -/
def add_episode (ur : String → Except String Resolved) (sh : String)
    (season episode : Nat) (lk : String) : Except String (List String) :=
  let show_name := sanitize_name sh
  let season_folder := "Season " ++ pad2 season
  match ur lk with
  | Except.error e => Except.error e
  | Except.ok resp =>
    if truthyS resp.direct then
      let base :=
        if truthyS resp.filename then strip_extension (resp.filename.getD "")
        else strip_extension (name_from_url (resp.direct.getD ""))
      let base_safe := sanitize_name base
      let finalName :=
        if hasS2E2 base_safe then base_safe ++ ".strm"
        else base_safe ++ " - S" ++ pad2 season ++ "E" ++ pad2 episode ++ ".strm"
      Except.ok ["tv", show_name, season_folder, finalName]
    else Except.error "No direct link returned from Real-Debrid."

/-- Per-item destination of `add_movie_links_from_list`: resolve, require a
truthy direct URL, derive the base from the RD filename / direct URL / link
URL / "unnamed" fallback chain, sanitize, and place it as
`movies/<safe>/<safe>.strm`. -/
def movieItemDest (ur : String → Except String Resolved) (lk : String) :
    Except String (List String) :=
  match ur lk with
  | Except.error e => Except.error e
  | Except.ok resp =>
    if truthyS resp.direct then
      let fname :=
        if !truthyS resp.filename then some (name_from_url (resp.direct.getD ""))
        else resp.filename
      let base := strip_extension
        (if truthyS fname then fname.getD ""
         else if name_from_url lk ≠ "" then name_from_url lk else "unnamed")
      let safe := sanitize_name base
      Except.ok ["movies", safe, safe ++ ".strm"]
    else Except.error "No direct URL returned"

/-- One iteration of the `add_movie_links_from_list` loop over the
accumulator (written count, error list, write trace of the Descriptor
Writer). -/
def movieStep (ur : String → Except String Resolved)
    (acc : Nat × List (String × String) × List (List String)) (l : String) :
    Nat × List (String × String) × List (List String) :=
  if pyStrip l = "" then acc
  else
    match movieItemDest ur (pyStrip l) with
    | Except.ok dest => (acc.1 + 1, acc.2.1, acc.2.2 ++ [dest])
    | Except.error e => (acc.1, acc.2.1 ++ [(pyStrip l, e)], acc.2.2)

/-- rdfin_strm.py `add_movie_links_from_list`: skip blank lines, never let a
per-item failure escape; returns (written, errors, writes). -/
def add_movie_links_from_list (ur : String → Except String Resolved)
    (links : List String) : Nat × List (String × String) × List (List String) :=
  links.foldl (movieStep ur) (0, [], [])

/-- Base name (`base_safe`) of one item of `add_episode_links_from_list`:
like the movie case but with the `f"{show_name}_ep"` fallback. -/
def episodeItemBase (ur : String → Except String Resolved)
    (show_name lk : String) : Except String String :=
  match ur lk with
  | Except.error e => Except.error e
  | Except.ok resp =>
    if truthyS resp.direct then
      let fname :=
        if !truthyS resp.filename then some (name_from_url (resp.direct.getD ""))
        else resp.filename
      let base := strip_extension
        (if truthyS fname then fname.getD ""
         else if name_from_url lk ≠ "" then name_from_url lk else show_name ++ "_ep")
      Except.ok (sanitize_name base)
    else Except.error "No direct URL returned"

/-- The number of `.strm` files a `season_path.glob("*.strm")` call sees in
the modelled directory (pathlib's glob also matches dot-files, so this is
exactly the names ending in ".strm"). -/
def strmCount (dir : List String) : Nat :=
  (dir.filter (fun f => endsWithStr ".strm" f)).length

/-- Outcome of processing one line of the episode batch. -/
inductive EpStep where
  | skipped
  | wrote (finalName : String)
  | failed (lk msg : String)
deriving DecidableEq, Repr

/-- One iteration of the `add_episode_links_from_list` loop, given the season
directory contents `dir` at the moment this link is processed: an `SxxExx`
marker in `base_safe` keeps the name, otherwise the episode index is the
current `.strm` count plus one. -/
def epStep (ur : String → Except String Resolved) (show_name : String)
    (season : Nat) (dir : List String) (l : String) : EpStep :=
  if pyStrip l = "" then EpStep.skipped
  else
    match episodeItemBase ur show_name (pyStrip l) with
    | Except.error e => EpStep.failed (pyStrip l) e
    | Except.ok base_safe =>
      if hasS2E2 base_safe then EpStep.wrote (base_safe ++ ".strm")
      else EpStep.wrote (base_safe ++ " - S" ++ pad2 season ++ "E" ++
        pad2 (strmCount dir + 1) ++ ".strm")

/-- The episode-batch loop body over ((written, errors, writes), dir): a
write adds the file to the directory (an overwrite of an existing name adds
nothing). -/
def episodeStepAcc (ur : String → Except String Resolved) (show_name : String)
    (season : Nat)
    (acc : (Nat × List (String × String) × List (List String)) × List String)
    (l : String) :
    (Nat × List (String × String) × List (List String)) × List String :=
  match epStep ur show_name season acc.2 l with
  | EpStep.skipped => acc
  | EpStep.failed lk e => ((acc.1.1, acc.1.2.1 ++ [(lk, e)], acc.1.2.2), acc.2)
  | EpStep.wrote f =>
    ((acc.1.1 + 1, acc.1.2.1,
      acc.1.2.2 ++ [["tv", show_name, "Season " ++ pad2 season, f]]),
     if acc.2.contains f then acc.2 else acc.2 ++ [f])

/-- rdfin_strm.py `add_episode_links_from_list`, with `dir0` the `.strm`
files already present in the season directory after its `mkdir`: returns
(written, errors, writes). -/
def add_episode_links_from_list (ur : String → Except String Resolved)
    (sh : String) (season : Nat) (links : List String) (dir0 : List String) :
    Nat × List (String × String) × List (List String) :=
  (links.foldl (episodeStepAcc ur (sanitize_name sh) season) ((0, [], []), dir0)).1

/-- A resolver whose every answer carries the plain filename "file.mkv". -/
def urPlain : String → Except String Resolved :=
  fun _ => Except.ok ⟨some "file.mkv", some "http://h/d"⟩

/-- A resolver whose every answer carries a filename with an embedded
`S03E07` marker. -/
def urMark : String → Except String Resolved :=
  fun _ => Except.ok ⟨some "Show.S03E07.mkv", some "http://h/d"⟩

/-- A resolver that fails exactly on the link "B" and otherwise names the
file after the link. -/
def urFail2 : String → Except String Resolved :=
  fun l => if l = "B" then Except.error "boom"
           else Except.ok ⟨some (l ++ ".mkv"), some "http://h/d"⟩

/-- Ordered lookup in the grouping association list. -/
def lookupG (k : String × Nat) : List ((String × Nat) × List String) → Option (List String)
  | [] => none
  | g :: t => if g.1 = k then some g.2 else lookupG k t

def keysOf (gs : List ((String × Nat) × List String)) : List (String × Nat) :=
  gs.map Prod.fst

/-- The links of the usable records with grouping key `k`, in input order. -/
def keyLinks (k : String × Nat) (es : List Entry) : List String :=
  (es.filter (fun e => truthyS e.link && decide (groupKey e = k))).map
    (fun e => e.link.getD "")

theorem mem_of_mem_dropWhileChar {p : Char → Bool} :
    ∀ {l : List Char} {a : Char}, a ∈ dropWhileChar p l → a ∈ l := by
  intro l
  induction l with
  | nil => intro a h; simp [dropWhileChar] at h
  | cons x xs ih =>
    intro a h
    by_cases hx : p x
    · simp only [dropWhileChar, if_pos hx] at h
      exact List.mem_cons_of_mem _ (ih h)
    · simpa [dropWhileChar, hx] using h

theorem head?_dropWhileChar {p : Char → Bool} :
    ∀ {l : List Char} {c : Char}, (dropWhileChar p l).head? = some c → p c = false := by
  intro l
  induction l with
  | nil => intro c h; simp [dropWhileChar] at h
  | cons x xs ih =>
    intro c h
    by_cases hx : p x
    · simp only [dropWhileChar, if_pos hx] at h
      exact ih h
    · simp only [dropWhileChar, if_neg hx, List.head?_cons, Option.some.injEq] at h
      subst h
      exact Bool.eq_false_iff.mpr hx

theorem mem_of_mem_dropTrailing {p : Char → Bool} {l : List Char} {a : Char}
    (h : a ∈ dropTrailing p l) : a ∈ l := by
  unfold dropTrailing at h
  rw [List.mem_reverse] at h
  exact List.mem_reverse.mp (mem_of_mem_dropWhileChar h)

theorem mem_of_mem_stripList {p : Char → Bool} {l : List Char} {a : Char}
    (h : a ∈ stripList p l) : a ∈ l :=
  mem_of_mem_dropWhileChar (mem_of_mem_dropTrailing h)

theorem getLast?_dropTrailing {p : Char → Bool} {l : List Char} {c : Char}
    (h : (dropTrailing p l).getLast? = some c) : p c = false := by
  unfold dropTrailing at h
  rw [List.getLast?_reverse] at h
  exact head?_dropWhileChar h

theorem getLast?_stripList {p : Char → Bool} {l : List Char} {c : Char}
    (h : (stripList p l).getLast? = some c) : p c = false :=
  getLast?_dropTrailing h

/-- C4 (amended): sanitize output never contains a reserved character and
never ends in whitespace (in particular never in a space), and the "unnamed"
fallback is produced exactly for empty input.  The original claim's stronger
"no trailing dot" and "all-reserved input gives the fallback" parts are
refuted by `claim_sanitize_cex`. -/
theorem claim_sanitize_amended (s : String) :
    (∀ c ∈ (sanitize_name s).data, reservedChar c = false) ∧
    (∀ c, (sanitize_name s).data.getLast? = some c → pyWsChar c = false) ∧
    (s = "" → sanitize_name s = "unnamed") := by
  by_cases hs : s = ""
  · subst hs
    refine ⟨?_, ?_, fun _ => rfl⟩
    · intro c hc
      exact (by decide : ∀ c ∈ ("unnamed" : String).data, reservedChar c = false) c hc
    · intro c hc
      have hd : (sanitize_name "").data.getLast? = some 'd' := rfl
      rw [hd, Option.some.injEq] at hc
      subst hc
      rfl
  · have hdef : (sanitize_name s).data =
        stripList pyWsChar (dropTrailing (fun c => c == '.' || c == ' ')
          (stripList pyWsChar (s.data.filter (fun c => !reservedChar c)))) := by
      simp [sanitize_name, hs, pyStrip]
    refine ⟨?_, ?_, fun h => absurd h hs⟩
    · intro c hc
      rw [hdef] at hc
      have h1 := mem_of_mem_stripList hc
      have h2 := mem_of_mem_dropTrailing h1
      have h3 := mem_of_mem_stripList h2
      have := (List.mem_filter.mp h3).2
      simpa using this
    · intro c hc
      rw [hdef] at hc
      exact getLast?_stripList hc

/-- C4 counterexample: the all-reserved input ":" sanitizes to the empty
string, not to the fallback literal, and the input with a tab before a
trailing dot keeps a trailing dot in the output. -/
theorem claim_sanitize_cex :
    sanitize_name ":" = "" ∧ sanitize_name ":" ≠ "unnamed" ∧
    sanitize_name "a.\t." = "a." ∧ endsWithStr "." (sanitize_name "a.\t.") = true := by
  refine ⟨rfl, by decide, rfl, rfl⟩

/-- C4 witness: the amended theorem applied at concrete inputs. -/
theorem claim_sanitize_witness :
    reservedChar 'M' = false ∧ sanitize_name "" = "unnamed" :=
  ⟨(claim_sanitize_amended "My:Movie").1 'M' (by decide),
   (claim_sanitize_amended "").2.2 rfl⟩

/-- C6: when the filtered path parts contain a segment lowercasing to "tv"
(at the first such index) the inference returns the following segment as the
show and the first 1-2 digit run of the segment after that as the season;
with no such segment and at least three parts it uses the third- and
second-from-last segments; and the spec's concrete example evaluates as
claimed. -/
theorem claim_infer_target (t : String) :
    (∀ i, findTvIdx (pyPartsFiltered t) 0 = some i →
      infer_show_and_season_from_target t =
        (nth (pyPartsFiltered t) (i + 1),
         (nth (pyPartsFiltered t) (i + 2)).bind firstDigitRun)) ∧
    (findTvIdx (pyPartsFiltered t) 0 = none → 3 ≤ (pyPartsFiltered t).length →
      infer_show_and_season_from_target t =
        (nth (pyPartsFiltered t) ((pyPartsFiltered t).length - 3),
         (nth (pyPartsFiltered t) ((pyPartsFiltered t).length - 2)).bind firstDigitRun)) ∧
    infer_show_and_season_from_target
        "/media/tv/Show Name/Season 01/Show Name - S01E01.strm" =
      (some "Show Name", some 1) := by
  refine ⟨?_, ?_, by decide⟩
  · intro i h
    by_cases ht : t = ""
    · subst ht
      have hn : findTvIdx (pyPartsFiltered "") 0 = none := rfl
      rw [hn] at h
      exact Option.noConfusion h
    · simp [infer_show_and_season_from_target, ht, h]
  · intro h hlen
    by_cases ht : t = ""
    · subst ht
      exact absurd hlen (by decide)
    · simp [infer_show_and_season_from_target, ht, h, hlen]

/-- C6 witness: the general statement applied at the spec's example path. -/
theorem claim_infer_target_witness :
    infer_show_and_season_from_target
        "/media/tv/Show Name/Season 01/Show Name - S01E01.strm" =
      (nth (pyPartsFiltered "/media/tv/Show Name/Season 01/Show Name - S01E01.strm") 2,
       (nth (pyPartsFiltered "/media/tv/Show Name/Season 01/Show Name - S01E01.strm") 3).bind
         firstDigitRun) :=
  (claim_infer_target "/media/tv/Show Name/Season 01/Show Name - S01E01.strm").1 1 (by decide)

/-- C7 (amended): with an `S<1-2 digit>E<1-2 digit>` marker in the stem, the
show is the text before the marker (separators trimmed, dots to spaces) when
that trimmed text is non-empty, and `none` when it is empty — the original
claim omitted the empty case refuted by `claim_infer_filename_cex`; the
season is the captured digits; with neither marker nor season token the
result is `(none, none)`; the two spec examples evaluate as claimed. -/
theorem claim_infer_filename_amended (f : String) :
    (∀ pre m sv, searchS12E12 (pyStem f) = some (pre, m, sv) →
      infer_from_filename_for_season f =
        ((if String.mk (stripList sepChar pre.data) = "" then none
          else some (pyStrip (replaceChar '.' ' ' (String.mk (stripList sepChar pre.data))))),
         some sv)) ∧
    (searchS12E12 (pyStem f) = none → searchSeasonTok (pyStem f) = none →
      infer_from_filename_for_season f = (none, none)) ∧
    infer_from_filename_for_season "Show.Name.S02E05.mkv" = (some "Show Name", some 2) ∧
    infer_from_filename_for_season "Random.File.mkv" = (none, none) := by
  refine ⟨?_, ?_, by decide, by decide⟩
  · intro pre m sv h
    by_cases hf : f = ""
    · subst hf
      have : searchS12E12 (pyStem "") = none := rfl
      rw [this] at h
      exact Option.noConfusion h
    · simp [infer_from_filename_for_season, hf, h]
  · intro h1 h2
    by_cases hf : f = ""
    · subst hf; rfl
    · simp [infer_from_filename_for_season, hf, h1, h2]

/-- C7 counterexample: a file name whose marker starts the stem gives show
`None`, not the empty string the claim's wording would make it. -/
theorem claim_infer_filename_cex :
    infer_from_filename_for_season "S01E02.mkv" = (none, some 1) ∧
    ((none, some 1) : Option String × Option Nat) ≠ (some "", some 1) := by
  refine ⟨rfl, by decide⟩

/-- C7 witness: the amended theorem applied at the spec's marker example. -/
theorem claim_infer_filename_witness :
    infer_from_filename_for_season "Show.Name.S02E05.mkv" =
      ((if String.mk (stripList sepChar ("Show.Name." : String).data) = "" then none
        else some (pyStrip (replaceChar '.' ' '
          (String.mk (stripList sepChar ("Show.Name." : String).data))))),
       some 2) :=
  (claim_infer_filename_amended "Show.Name.S02E05.mkv").1 "Show.Name." "S02E05" 2 (by decide)

/-- C8: the inference helpers are total functions of their string input and
every internal parse failure degrades to the documented fallback — a urlsplit
failure makes `name_from_url` return "unnamed", and when no pattern applies
the two identity-inference functions return `(none, none)`. -/
theorem claim_inference_total :
    (∀ url, (pyUrlsplit url).isOk = false → name_from_url url = "unnamed") ∧
    (∀ t, findTvIdx (pyPartsFiltered t) 0 = none → (pyPartsFiltered t).length < 3 →
      infer_show_and_season_from_target t = (none, none)) ∧
    (∀ f, searchS12E12 (pyStem f) = none → searchSeasonTok (pyStem f) = none →
      infer_from_filename_for_season f = (none, none)) := by
  refine ⟨?_, ?_, ?_⟩
  · intro url h
    cases hu : pyUrlsplit url with
    | error e => simp [name_from_url, hu]
    | ok u => rw [hu] at h; exact Bool.noConfusion h
  · intro t h hlen
    by_cases ht : t = ""
    · subst ht; rfl
    · have : ¬ 3 ≤ (pyPartsFiltered t).length := by omega
      simp [infer_show_and_season_from_target, ht, h, this]
  · intro f h1 h2
    by_cases hf : f = ""
    · subst hf; rfl
    · simp [infer_from_filename_for_season, hf, h1, h2]

/-- C8 witness: the totality statements applied at concrete inputs, including
the bracket URL on which Python `urlsplit` raises. -/
theorem claim_inference_total_witness :
    name_from_url "http://[" = "unnamed" ∧
    infer_show_and_season_from_target "abc" = (none, none) ∧
    infer_from_filename_for_season "xyz" = (none, none) :=
  ⟨claim_inference_total.1 "http://[" (by decide),
   claim_inference_total.2.1 "abc" (by decide) (by decide),
   claim_inference_total.2.2 "xyz" (by decide) (by decide)⟩

theorem lookupG_insertGroup_same (k : String × Nat) (v : String) :
    ∀ gs, lookupG k (insertGroup k v gs) = some ((lookupG k gs).getD [] ++ [v]) := by
  intro gs
  induction gs with
  | nil => simp [insertGroup, lookupG]
  | cons g t ih =>
    by_cases hg : g.1 = k
    · simp [insertGroup, lookupG, hg]
    · simp [insertGroup, lookupG, hg, ih]

theorem lookupG_insertGroup_ne (k k' : String × Nat) (v : String) (h : k' ≠ k) :
    ∀ gs, lookupG k (insertGroup k' v gs) = lookupG k gs := by
  intro gs
  induction gs with
  | nil => simp [insertGroup, lookupG, h]
  | cons g t ih =>
    by_cases hg : g.1 = k'
    · simp [insertGroup, lookupG, hg, h]
    · by_cases hk : g.1 = k <;> simp [insertGroup, lookupG, hg, hk, ih, Ne.symm h]

theorem keyLinks_cons (k : String × Nat) (e : Entry) (es : List Entry) :
    keyLinks k (e :: es) =
      (if truthyS e.link && decide (groupKey e = k) then [e.link.getD ""] else []) ++
        keyLinks k es := by
  by_cases hc : truthyS e.link && decide (groupKey e = k) <;>
    simp [keyLinks, List.filter_cons, hc]

theorem tvGroups_loop_some (es : List Entry) :
    ∀ gs (k : String × Nat) (vs : List String), lookupG k gs = some vs →
      lookupG k (es.foldl tvGroupsStep gs) = some (vs ++ keyLinks k es) := by
  induction es with
  | nil => intro gs k vs h; simpa [keyLinks] using h
  | cons e es ih =>
    intro gs k vs h
    rw [List.foldl_cons, keyLinks_cons]
    by_cases htr : truthyS e.link
    · by_cases hk : groupKey e = k
      · have hstep : tvGroupsStep gs e = insertGroup k (e.link.getD "") gs := by
          simp [tvGroupsStep, htr, hk]
        have hins := lookupG_insertGroup_same k (e.link.getD "") gs
        rw [h] at hins
        have := ih (tvGroupsStep gs e) k (vs ++ [e.link.getD ""]) (by rw [hstep]; exact hins)
        rw [this]
        simp [htr, hk]
      · have hstep : tvGroupsStep gs e = insertGroup (groupKey e) (e.link.getD "") gs := by
          simp [tvGroupsStep, htr]
        have hins := lookupG_insertGroup_ne k (groupKey e) (e.link.getD "") hk gs
        have := ih (tvGroupsStep gs e) k vs (by rw [hstep, hins]; exact h)
        rw [this]
        simp [hk]
    · have hstep : tvGroupsStep gs e = gs := by simp [tvGroupsStep, htr]
      rw [hstep]
      have := ih gs k vs h
      rw [this]
      simp [htr]

theorem tvGroups_loop_none (es : List Entry) :
    ∀ gs (k : String × Nat), lookupG k gs = none →
      lookupG k (es.foldl tvGroupsStep gs) =
        (if keyLinks k es = [] then none else some (keyLinks k es)) := by
  induction es with
  | nil => intro gs k h; simpa [keyLinks] using h
  | cons e es ih =>
    intro gs k h
    rw [List.foldl_cons, keyLinks_cons]
    by_cases htr : truthyS e.link
    · by_cases hk : groupKey e = k
      · have hstep : tvGroupsStep gs e = insertGroup k (e.link.getD "") gs := by
          simp [tvGroupsStep, htr, hk]
        have hins := lookupG_insertGroup_same k (e.link.getD "") gs
        rw [h] at hins
        have hrec := tvGroups_loop_some es (tvGroupsStep gs e) k [e.link.getD ""]
          (by rw [hstep]; simpa using hins)
        rw [hrec]
        simp [htr, hk]
      · have hstep : tvGroupsStep gs e = insertGroup (groupKey e) (e.link.getD "") gs := by
          simp [tvGroupsStep, htr]
        have hrec := ih (tvGroupsStep gs e) k
          (by rw [hstep, lookupG_insertGroup_ne k (groupKey e) (e.link.getD "") hk gs]; exact h)
        rw [hrec]
        simp [hk]
    · have hstep : tvGroupsStep gs e = gs := by simp [tvGroupsStep, htr]
      rw [hstep, ih gs k h]
      simp [htr]

theorem keysOf_cons (g : (String × Nat) × List String)
    (t : List ((String × Nat) × List String)) :
    keysOf (g :: t) = g.1 :: keysOf t := rfl

theorem keysOf_insertGroup (k : String × Nat) (v : String) :
    ∀ gs, keysOf (insertGroup k v gs) =
      (if k ∈ keysOf gs then keysOf gs else keysOf gs ++ [k]) := by
  intro gs
  induction gs with
  | nil => simp [insertGroup, keysOf]
  | cons g t ih =>
    by_cases hg : g.1 = k
    · have h1 : insertGroup k v (g :: t) = (g.1, g.2 ++ [v]) :: t := by
        simp [insertGroup, hg]
      have h2 : k ∈ keysOf (g :: t) := by
        rw [keysOf_cons, hg]; exact List.mem_cons_self _ _
      rw [h1, if_pos h2, keysOf_cons, keysOf_cons]
    · have h1 : insertGroup k v (g :: t) = g :: insertGroup k v t := by
        simp [insertGroup, hg]
      have hne : ¬ k = g.1 := fun hh => hg hh.symm
      by_cases hm : k ∈ keysOf t
      · have h2 : k ∈ keysOf (g :: t) := by
          rw [keysOf_cons]; exact List.mem_cons_of_mem _ hm
        rw [h1, if_pos h2, keysOf_cons, keysOf_cons, ih, if_pos hm]
      · have h2 : k ∉ keysOf (g :: t) := by
          rw [keysOf_cons]; simp [hne, hm]
        rw [h1, if_neg h2, keysOf_cons, ih, if_neg hm, keysOf_cons, List.cons_append]

theorem nodup_keysOf_insertGroup (k : String × Nat) (v : String)
    (gs : List ((String × Nat) × List String)) (h : (keysOf gs).Nodup) :
    (keysOf (insertGroup k v gs)).Nodup := by
  rw [keysOf_insertGroup]
  by_cases hm : k ∈ keysOf gs
  · simpa [hm] using h
  · simp only [hm, if_false]
    exact List.Nodup.append h (List.nodup_singleton k)
      (by simpa [List.disjoint_singleton] using hm)

theorem nodup_keysOf_tvGroups_loop (es : List Entry) :
    ∀ gs, (keysOf gs).Nodup → (keysOf (es.foldl tvGroupsStep gs)).Nodup := by
  induction es with
  | nil => intro gs h; simpa using h
  | cons e es ih =>
    intro gs h
    rw [List.foldl_cons]
    refine ih _ ?_
    by_cases htr : truthyS e.link
    · simpa [tvGroupsStep, htr] using
        nodup_keysOf_insertGroup (groupKey e) (e.link.getD "") gs h
    · simpa [tvGroupsStep, htr] using h

/-- C2 (amended): every record with a truthy link lands in exactly one group
— looking any key up in the TV grouping yields precisely the links of the
usable records with that key (computed by the source's `groupKey`, which
defaults the season to 1 both when no season was inferred and when the
inferred season is the falsy 0), in input order; the group keys are pairwise
distinct; and the spec's two-show example produces exactly the claimed
groups.  The original claim's "defaults to 1 only when no season is
inferred" reading is refuted by `claim_tv_grouping_cex`. -/
theorem claim_tv_grouping (es : List Entry) (k : String × Nat) :
    lookupG k (tvGroups es) =
      (if keyLinks k es = [] then none else some (keyLinks k es)) ∧
    (keysOf (tvGroups es)).Nodup ∧
    tvGroups [⟨some "L1", some "/media/tv/A/Season 01/a.strm", ""⟩,
              ⟨some "L2", some "/media/tv/A/Season 01/b.strm", ""⟩,
              ⟨some "L3", some "/media/tv/B/Season 02/c.strm", ""⟩] =
      [(("A", 1), ["L1", "L2"]), (("B", 2), ["L3"])] := by
  refine ⟨?_, ?_, by decide⟩
  · exact tvGroups_loop_none es [] k rfl
  · exact nodup_keysOf_tvGroups_loop es [] (by simp [keysOf])

/-- C2 counterexample: a record whose target infers season `0` ("Season 00")
is keyed with season `1` by the source (Python `if not season` treats 0 as
missing), while the claim's inference-then-default-on-missing reading gives
season `0`. -/
theorem claim_tv_grouping_cex :
    specGroupKey ⟨some "L1", some "/media/tv/A/Season 00/x.strm", ""⟩ = ("A", 0) ∧
    tvGroups [⟨some "L1", some "/media/tv/A/Season 00/x.strm", ""⟩] =
      [(("A", 1), ["L1"])] ∧
    (("A", 0) : String × Nat) ≠ ("A", 1) := by
  refine ⟨rfl, rfl, by decide⟩

theorem tvGroups_eq_nil_of_no_links (es : List Entry)
    (h : ∀ e ∈ es, truthyS e.link = false) :
    ∀ gs, es.foldl tvGroupsStep gs = gs := by
  induction es with
  | nil => intro gs; rfl
  | cons e es ih =>
    intro gs
    rw [List.foldl_cons]
    have hstep : tvGroupsStep gs e = gs := by
      simp [tvGroupsStep, h e (List.mem_cons_self _ _)]
    rw [hstep]
    exact ih (fun e' he' => h e' (List.mem_cons_of_mem _ he')) gs

/-- C3 (amended): both paths raise when the log parses to no entries at all,
and the movies path raises whenever no entry has a truthy link (in
particular for a log with no `link=` token and no bare `http(s)://` part);
but the tv path with entries and no truthy link returns the empty job list
instead of raising — the claim's "movies or tv" reading is refuted by
`claim_refetch_no_links_cex`. -/
theorem claim_refetch_no_links (lines : List String) :
    (parse_log_entries lines = [] →
      spawn_refresh_job_simple "movies" lines = Except.error "no links found in log" ∧
      spawn_refresh_job_simple "tv" lines = Except.error "no links found in log") ∧
    (parse_log_entries lines ≠ [] →
      (∀ e ∈ parse_log_entries lines, truthyS e.link = false) →
      spawn_refresh_job_simple "movies" lines =
        Except.error "no links found in movie log") ∧
    (parse_log_entries lines ≠ [] →
      (∀ e ∈ parse_log_entries lines, truthyS e.link = false) →
      spawn_refresh_job_simple "tv" lines = Except.ok []) ∧
    spawn_refresh_job_simple "movies" ["2024-01-01T00:00:00 | foo | bar"] =
      Except.error "no links found in movie log" := by
  refine ⟨?_, ?_, ?_, rfl⟩
  · intro h
    constructor <;> simp [spawn_refresh_job_simple, h]
  · intro hne hall
    have hfil : (parse_log_entries lines).filter (fun e => truthyS e.link) = [] := by
      rw [List.filter_eq_nil_iff]
      intro e he
      simp [hall e he]
    simp [spawn_refresh_job_simple, hne, hfil]
  · intro hne hall
    have hgr : tvGroups (parse_log_entries lines) = [] :=
      tvGroups_eq_nil_of_no_links (parse_log_entries lines) hall []
    simp [spawn_refresh_job_simple, hne, hgr]

/-- C3 counterexample: a tv log whose single entry has a target but no link
makes the refetch return successfully with an empty job list — no error is
raised. -/
theorem claim_refetch_no_links_cex :
    spawn_refresh_job_simple "tv" ["target=/x"] = Except.ok [] ∧
    (spawn_refresh_job_simple "tv" ["target=/x"]).isOk = true := by
  refine ⟨rfl, rfl⟩

/-- C3 witness: the amended theorem applied to an empty log and to a log
whose entries carry no usable link. -/
theorem claim_refetch_no_links_witness :
    (spawn_refresh_job_simple "movies" [] = Except.error "no links found in log" ∧
     spawn_refresh_job_simple "tv" [] = Except.error "no links found in log") ∧
    spawn_refresh_job_simple "movies" ["target=/x"] =
      Except.error "no links found in movie log" ∧
    spawn_refresh_job_simple "tv" ["target=/x"] = Except.ok [] :=
  ⟨(claim_refetch_no_links []).1 rfl,
   (claim_refetch_no_links ["target=/x"]).2.1 (by decide) (by decide),
   (claim_refetch_no_links ["target=/x"]).2.2.1 (by decide) (by decide)⟩

theorem movie_loop_inv (ur : String → Except String Resolved) (links : List String) :
    ∀ acc : Nat × List (String × String) × List (List String),
      ((links.foldl (movieStep ur) acc).1 + (links.foldl (movieStep ur) acc).2.1.length
        = acc.1 + acc.2.1.length + (links.filter (fun l => pyStrip l != "")).length) ∧
      ((links.foldl (movieStep ur) acc).1 + acc.2.2.length
        = acc.1 + (links.foldl (movieStep ur) acc).2.2.length) := by
  induction links with
  | nil => intro acc; simp
  | cons l ls ih =>
    intro acc
    simp only [List.foldl_cons]
    obtain ⟨ih1, ih2⟩ := ih (movieStep ur acc l)
    by_cases hl : pyStrip l = ""
    · have hstep : movieStep ur acc l = acc := by simp [movieStep, hl]
      rw [hstep] at ih1 ih2 ⊢
      refine ⟨?_, ih2⟩
      rw [ih1]
      simp [List.filter_cons, hl]
    · have hb : (pyStrip l != "") = true := by simpa using hl
      cases hd : movieItemDest ur (pyStrip l) with
      | ok dest =>
        have hstep : movieStep ur acc l = (acc.1 + 1, acc.2.1, acc.2.2 ++ [dest]) := by
          simp [movieStep, hl, hd]
        rw [hstep] at ih1 ih2 ⊢
        simp only [List.length_append, List.length_cons, List.length_nil] at ih1 ih2
        constructor
        · rw [ih1]
          simp only [List.filter_cons, hb, if_true, List.length_cons]
          omega
        · omega
      | error e =>
        have hstep : movieStep ur acc l =
            (acc.1, acc.2.1 ++ [(pyStrip l, e)], acc.2.2) := by
          simp [movieStep, hl, hd]
        rw [hstep] at ih1 ih2 ⊢
        simp only [List.length_append, List.length_cons, List.length_nil] at ih1 ih2
        constructor
        · rw [ih1]
          simp only [List.filter_cons, hb, if_true, List.length_cons]
          omega
        · omega

theorem episode_loop_inv (ur : String → Except String Resolved)
    (show_name : String) (season : Nat) (links : List String) :
    ∀ acc : (Nat × List (String × String) × List (List String)) × List String,
      ((links.foldl (episodeStepAcc ur show_name season) acc).1.1 +
          (links.foldl (episodeStepAcc ur show_name season) acc).1.2.1.length
        = acc.1.1 + acc.1.2.1.length + (links.filter (fun l => pyStrip l != "")).length) ∧
      ((links.foldl (episodeStepAcc ur show_name season) acc).1.1 + acc.1.2.2.length
        = acc.1.1 + (links.foldl (episodeStepAcc ur show_name season) acc).1.2.2.length) := by
  induction links with
  | nil => intro acc; simp
  | cons l ls ih =>
    intro acc
    simp only [List.foldl_cons]
    obtain ⟨ih1, ih2⟩ := ih (episodeStepAcc ur show_name season acc l)
    by_cases hl : pyStrip l = ""
    · have hstep : episodeStepAcc ur show_name season acc l = acc := by
        simp [episodeStepAcc, epStep, hl]
      rw [hstep] at ih1 ih2 ⊢
      refine ⟨?_, ih2⟩
      rw [ih1]
      simp [List.filter_cons, hl]
    · have hb : (pyStrip l != "") = true := by simpa using hl
      cases hd : episodeItemBase ur show_name (pyStrip l) with
      | error e =>
        have hstep : episodeStepAcc ur show_name season acc l =
            ((acc.1.1, acc.1.2.1 ++ [(pyStrip l, e)], acc.1.2.2), acc.2) := by
          simp [episodeStepAcc, epStep, hl, hd]
        rw [hstep] at ih1 ih2 ⊢
        simp only [List.length_append, List.length_cons, List.length_nil] at ih1 ih2
        constructor
        · rw [ih1]
          simp only [List.filter_cons, hb, if_true, List.length_cons]
          omega
        · omega
      | ok b =>
        have hex : ∃ f d, episodeStepAcc ur show_name season acc l =
            ((acc.1.1 + 1, acc.1.2.1,
              acc.1.2.2 ++ [["tv", show_name, "Season " ++ pad2 season, f]]), d) := by
          by_cases hm : hasS2E2 b
          · exact ⟨b ++ ".strm",
              if (b ++ ".strm") ∈ acc.2 then acc.2 else acc.2 ++ [b ++ ".strm"],
              by simp [episodeStepAcc, epStep, hl, hd, hm]⟩
          · exact ⟨b ++ " - S" ++ pad2 season ++ "E" ++ pad2 (strmCount acc.2 + 1) ++ ".strm",
              if (b ++ " - S" ++ pad2 season ++ "E" ++ pad2 (strmCount acc.2 + 1) ++ ".strm") ∈ acc.2
              then acc.2
              else acc.2 ++ [b ++ " - S" ++ pad2 season ++ "E" ++ pad2 (strmCount acc.2 + 1) ++ ".strm"],
              by simp [episodeStepAcc, epStep, hl, hd, hm]⟩
        obtain ⟨f, d, hstep⟩ := hex
        rw [hstep] at ih1 ih2 ⊢
        simp only [List.length_append, List.length_cons, List.length_nil] at ih1 ih2
        constructor
        · rw [ih1]
          simp only [List.filter_cons, hb, if_true, List.length_cons]
          omega
        · omega

/-- C5: in both batch operations a per-item failure never aborts the batch —
the written count always equals the number of writes performed, written plus
errors accounts for every non-blank input line, and in the concrete
one-failure-of-three runs item 2 produces exactly one (link, reason) entry
while items 1 and 3 are written. -/
theorem claim_batch_failure_isolation (ur : String → Except String Resolved)
    (links : List String) (sh : String) (season : Nat) (dir0 : List String) :
    ((add_movie_links_from_list ur links).1 =
        (add_movie_links_from_list ur links).2.2.length ∧
      (add_movie_links_from_list ur links).1 +
          (add_movie_links_from_list ur links).2.1.length
        = (links.filter (fun l => pyStrip l != "")).length) ∧
    ((add_episode_links_from_list ur sh season links dir0).1 =
        (add_episode_links_from_list ur sh season links dir0).2.2.length ∧
      (add_episode_links_from_list ur sh season links dir0).1 +
          (add_episode_links_from_list ur sh season links dir0).2.1.length
        = (links.filter (fun l => pyStrip l != "")).length) ∧
    add_movie_links_from_list urFail2 ["A", "B", "C"] =
      (2, [("B", "boom")],
       [["movies", "A", "A.strm"], ["movies", "C", "C.strm"]]) ∧
    add_episode_links_from_list urFail2 "Sh" 1 ["A", "B", "C"] [] =
      (2, [("B", "boom")],
       [["tv", "Sh", "Season 01", "A - S01E01.strm"],
        ["tv", "Sh", "Season 01", "C - S01E02.strm"]]) := by
  refine ⟨⟨?_, ?_⟩, ⟨?_, ?_⟩, rfl, rfl⟩
  · have h := (movie_loop_inv ur links (0, [], [])).2
    simp only [add_movie_links_from_list]
    simp at h
    omega
  · have h := (movie_loop_inv ur links (0, [], [])).1
    simp only [add_movie_links_from_list]
    simp at h
    omega
  · have h := (episode_loop_inv ur (sanitize_name sh) season links ((0, [], []), dir0)).2
    simp only [add_episode_links_from_list]
    simp at h
    omega
  · have h := (episode_loop_inv ur (sanitize_name sh) season links ((0, [], []), dir0)).1
    simp only [add_episode_links_from_list]
    simp at h
    omega

theorem movieItemDest_shape (ur : String → Except String Resolved)
    (lk : String) (dest : List String) (h : movieItemDest ur lk = Except.ok dest) :
    ∃ s, dest = ["movies", s, s ++ ".strm"] := by
  unfold movieItemDest at h
  split at h
  · exact Except.noConfusion h
  · split at h
    · simp only [Except.ok.injEq] at h
      exact ⟨_, h.symm⟩
    · exact Except.noConfusion h

theorem movie_writes_shape (ur : String → Except String Resolved)
    (links : List String) :
    ∀ acc : Nat × List (String × String) × List (List String),
      (∀ d ∈ acc.2.2, ∃ s, d = ["movies", s, s ++ ".strm"]) →
      ∀ d ∈ (links.foldl (movieStep ur) acc).2.2, ∃ s, d = ["movies", s, s ++ ".strm"] := by
  induction links with
  | nil => intro acc hacc; simpa using hacc
  | cons l ls ih =>
    intro acc hacc
    simp only [List.foldl_cons]
    refine ih (movieStep ur acc l) ?_
    by_cases hl : pyStrip l = ""
    · simpa [movieStep, hl] using hacc
    · cases hd : movieItemDest ur (pyStrip l) with
      | ok dest =>
        intro d hdm
        simp only [movieStep, hl, if_neg hl, hd] at hdm
        rcases List.mem_append.mp hdm with hmem | hmem
        · exact hacc d hmem
        · rw [List.mem_singleton.mp hmem]
          exact movieItemDest_shape ur (pyStrip l) dest hd
      | error e =>
        simpa [movieStep, hl, hd] using hacc

/-- C9: every movie placement — the single-title command and every write of
the batch operation — lands at `movies/<safe>/<safe>.strm` with the very same
string as directory name and file base name. -/
theorem claim_movie_dest_shape :
    (∀ ur title lk dest, add_movie ur title lk = Except.ok dest →
      ∃ s, dest = ["movies", s, s ++ ".strm"]) ∧
    (∀ ur links d, d ∈ (add_movie_links_from_list ur links).2.2 →
      ∃ s, d = ["movies", s, s ++ ".strm"]) := by
  constructor
  · intro ur title lk dest h
    unfold add_movie at h
    split at h
    · exact Except.noConfusion h
    · split at h
      · simp only [Except.ok.injEq] at h
        exact ⟨_, h.symm⟩
      · exact Except.noConfusion h
  · intro ur links d hmem
    exact movie_writes_shape ur links (0, [], []) (by simp) d hmem

/-- C9 witness: the shape statements applied to a concrete single placement
and to a concrete batch write. -/
theorem claim_movie_dest_shape_witness :
    (∃ s, (["movies", "T", "T.strm"] : List String) = ["movies", s, s ++ ".strm"]) ∧
    (∃ s, (["movies", "A", "A.strm"] : List String) = ["movies", s, s ++ ".strm"]) :=
  ⟨claim_movie_dest_shape.1 urPlain "T.mkv" "L" ["movies", "T", "T.strm"] rfl,
   claim_movie_dest_shape.2 urFail2 ["A", "B", "C"] ["movies", "A", "A.strm"] (by decide)⟩

/-- C10: the season directory of `add_episode` is always "Season NN" built
from the caller-supplied season argument, whatever the resolved filename
contains; in the concrete run the `S03E07` marker of the resolved filename
survives only in the file base name while the folder is the caller's
"Season 01". -/
theorem claim_episode_caller_season :
    (∀ ur sh (season episode : Nat) lk dest,
      add_episode ur sh season episode lk = Except.ok dest →
      ∃ f, dest = ["tv", sanitize_name sh, "Season " ++ pad2 season, f]) ∧
    add_episode urMark "My Show" 1 5 "L" =
      Except.ok ["tv", "My Show", "Season 01", "Show.S03E07.strm"] := by
  constructor
  · intro ur sh season episode lk dest h
    unfold add_episode at h
    split at h
    · exact Except.noConfusion h
    · split at h
      · split at h
        · simp only [Except.ok.injEq] at h
          exact ⟨_, h.symm⟩
        · simp only [Except.ok.injEq] at h
          exact ⟨_, h.symm⟩
      · exact Except.noConfusion h
  · rfl

/-- C10 witness: the general statement applied at the concrete run whose
marker season (03) differs from the caller's season (1). -/
theorem claim_episode_caller_season_witness :
    ∃ f, (["tv", "My Show", "Season 01", "Show.S03E07.strm"] : List String) =
      ["tv", sanitize_name "My Show", "Season " ++ pad2 1, f] :=
  claim_episode_caller_season.1 urMark "My Show" 1 5 "L"
    ["tv", "My Show", "Season 01", "Show.S03E07.strm"] rfl

/-- C1: whenever the episode-batch loop writes a file for a link, given the
season directory contents at that moment: a sanitized base that already
contains a (two-digit, case-insensitive) `SxxExx` marker is used unchanged
with the descriptor suffix appended, and otherwise the name is the base
followed by a marker built from the caller's season and the current `.strm`
count plus one, both zero-padded. -/
theorem claim_batch_episode_naming (ur : String → Except String Resolved)
    (show_name : String) (season : Nat) (dir : List String) (l b f : String)
    (hstep : epStep ur show_name season dir l = EpStep.wrote f)
    (hbase : episodeItemBase ur show_name (pyStrip l) = Except.ok b) :
    (hasS2E2 b = true → f = b ++ ".strm") ∧
    (hasS2E2 b = false →
      f = b ++ " - S" ++ pad2 season ++ "E" ++ pad2 (strmCount dir + 1) ++ ".strm") := by
  unfold epStep at hstep
  split at hstep
  · exact EpStep.noConfusion hstep
  · split at hstep
    · exact EpStep.noConfusion hstep
    · rename_i base_safe heq
      rw [hbase] at heq
      injection heq with hh
      subst hh
      split at hstep
      · rename_i hm
        injection hstep with hf
        exact ⟨fun _ => hf.symm, fun hc => Bool.noConfusion (hm.symm.trans hc)⟩
      · rename_i hm
        have hm' : hasS2E2 b = false := by simpa using hm
        injection hstep with hf
        exact ⟨fun hc => Bool.noConfusion (hc.symm.trans hm'), fun _ => hf.symm⟩

/-- C1 witness: the naming rule applied at a concrete moment — base "file"
with no marker, one `.strm` file already in the directory, season 1 — gives
episode index 02. -/
theorem claim_batch_episode_naming_witness :
    "file - S01E02.strm" =
      "file" ++ " - S" ++ pad2 1 ++ "E" ++ pad2 (strmCount ["a.strm"] + 1) ++ ".strm" :=
  (claim_batch_episode_naming urPlain "Show" 1 ["a.strm"] "x" "file"
    "file - S01E02.strm" rfl rfl).2 rfl

end RDFin



